import Mathlib

/-!
# kenobi-http-client: redirect policies, address rotation, response model

A shallow embedding of the parts of `http_request.go`, `http_redirection.go`
and `http_response.go` that the specification talks about, followed by the
proofs that settle each claim.

Conventions of the embedding:

* Go strings are `String`; byte-level library routines work on `String.data`.
  All delimiters the routines look for (`:`, `[`, `]`, `.`, `/`) are ASCII, so
  on valid UTF-8 scanning characters and scanning bytes find the same places.
* A Go slice that the code compares with `nil` is an `Option (List _)`:
  `none` is the nil slice, `some []` an empty slice that is not nil.
* A Go map field that may be nil is an `Option (GoMap _)` and a request
  pointer an `Option`: `none` is nil.
* A run of Go code that can hit a run-time fault (index out of range, integer
  division by zero, nil dereference, assignment into a nil map) returns a
  `GoResult`.
* Go's `int` is an `Int`, brought back into the 64-bit range where the code
  does arithmetic on it.
-/

namespace Kenobi

/-- Outcome of a piece of Go code that may stop with a run-time fault. -/
inductive GoResult (α : Type) where
  | ret (a : α)
  | fault (why : String)
  deriving Repr, DecidableEq

/-- Go errors are compared by value; the text is what `Error()` prints. -/
abbrev GoError := String

/-! ## Library routines used by the source (`strings`, `fmt`) -/

/-- `strings.TrimRight(s, ".")`: every trailing `.` is removed. -/
def trimRightDots (s : String) : String :=
  String.mk (s.data.reverse.dropWhile (fun c => c == '.')).reverse

/-- `strings.TrimLeft(s, "/")`: every leading `/` is removed. -/
def trimLeftSlashes (s : String) : String :=
  String.mk (s.data.dropWhile (fun c => c == '/'))

/-! ## Address rotator (`http_request.go`, `selectAddr`) -/

/-- `net.SRV`, the two fields `selectAddr` reads (`Port` is a `uint16`). -/
structure NetSRV where
  Target : String
  Port : Nat
  deriving Repr, DecidableEq

/-- Go's `%` on `int`: truncated remainder, a fault when the divisor is 0. -/
def goMod (a b : Int) : GoResult Int :=
  if b = 0 then GoResult.fault "integer divide by zero" else GoResult.ret (Int.tmod a b)

/-- Indexing `addrs[idx]` with a Go `int`. -/
def goIndex {α : Type} (xs : List α) (idx : Int) : GoResult α :=
  if idx < 0 then GoResult.fault "index out of range"
  else match xs.get? idx.toNat with
    | some x => GoResult.ret x
    | none => GoResult.fault "index out of range"

/-- `HttpRequest.selectAddr`; `scheme` is `r.client.scheme`. -/
def selectAddr (scheme : String) (addrs : Option (List NetSRV)) (path : String)
    (attempt : Int) : GoResult String :=
  match addrs with
  | none => GoResult.ret path
  | some as =>
    match goMod attempt (as.length : Int) with
    | GoResult.fault w => GoResult.fault w
    | GoResult.ret idx =>
      match goIndex as idx with
      | GoResult.fault w => GoResult.fault w
      | GoResult.ret a =>
        let domain := trimRightDots a.Target
        let path := trimLeftSlashes path
        GoResult.ret (scheme ++ "://" ++ domain ++ ":" ++ toString a.Port ++ "/" ++ path)

/-! ## Go maps with string keys -/

/-- A Go `map[string]V`: the entries, one per key. The order of `entries` is
the order in which a `range` loop visits them; Go leaves that order open, and
every order is some list of the same entries. -/
structure GoMap (V : Type) where
  entries : List (String × V)
  deriving Repr, DecidableEq

namespace GoMap

/-- The empty map of `make(map[string]V)`. -/
def empty {V : Type} : GoMap V := ⟨[]⟩

/-- Keys of the map in iteration order. -/
def keys {V : Type} (m : GoMap V) : List String := m.entries.map Prod.fst

/-- Representation invariant: no key occurs twice. -/
def WellFormed {V : Type} (m : GoMap V) : Prop := m.keys.Nodup

instance {V : Type} (m : GoMap V) : Decidable m.WellFormed := by
  unfold WellFormed; infer_instance

/-- Lookup in an entry list. -/
def getEntries {V : Type} (k : String) : List (String × V) → Option V
  | [] => none
  | (k1, v) :: rest => if k1 = k then some v else getEntries k rest

/-- The two-value read `v, ok := m[k]`. -/
def get {V : Type} (m : GoMap V) (k : String) : Option V :=
  getEntries k m.entries

/-- Entry list after `m[k] = v`. -/
def setEntries {V : Type} (k : String) (v : V) : List (String × V) → List (String × V)
  | [] => [(k, v)]
  | (k1, v1) :: rest => if k1 = k then (k, v) :: rest else (k1, v1) :: setEntries k v rest

/-- The assignment `m[k] = v`. -/
def set {V : Type} (m : GoMap V) (k : String) (v : V) : GoMap V :=
  ⟨setEntries k v m.entries⟩

end GoMap

/-! ## Library routines used by the redirect policies (`strings`, `net`) -/

/-- `strings.ToLower` and `strings.EqualFold` (Unicode tables of the Go
library), taken as given. -/
structure CaseFolding where
  toLower : String → String
  equalFold : String → String → Bool

/-- The two routines on ASCII text, where Go's tables agree with them. -/
def asciiCase : CaseFolding where
  toLower := fun s => String.mk (s.data.map Char.toLower)
  equalFold := fun s t => s.data.map Char.toLower == t.data.map Char.toLower

/-- `strings.IndexByte` / `strings.Index` with a one-byte pattern: position of
the first `c`, or `-1`. -/
def indexByte (c : Char) : List Char → Int
  | [] => -1
  | x :: xs => if x = c then 0 else
      let r := indexByte c xs
      if r < 0 then -1 else r + 1

/-- `bytealg.LastIndexByteString`: position of the last `c`, or `-1`. -/
def lastIndexByte (c : Char) : List Char → Int
  | [] => -1
  | x :: xs =>
      let r := lastIndexByte c xs
      if 0 ≤ r then r + 1 else if x = c then 0 else -1

/-- `net.SplitHostPort` of the Go standard library, on the characters of
`hostport`; the result is `(host, port)` or the text of the `AddrError`. -/
def splitHostPortChars (hostport : List Char) : Except String (List Char × List Char) :=
  let i := lastIndexByte ':' hostport
  if i < 0 then Except.error "missing port in address" else
  let bracketed : Except String (List Char × Nat × Nat) :=
    if hostport.head? = some '[' then
      let e := indexByte ']' hostport
      if e < 0 then Except.error "missing ']' in address"
      else if e + 1 = (hostport.length : Int) then Except.error "missing port in address"
      else if e + 1 = i then
        Except.ok ((hostport.drop 1).take (e.toNat - 1), 1, e.toNat + 1)
      else if hostport.get? (e.toNat + 1) = some ':' then
        Except.error "too many colons in address"
      else Except.error "missing port in address"
    else
      let host := hostport.take i.toNat
      if 0 ≤ indexByte ':' host then Except.error "too many colons in address"
      else Except.ok (host, 0, 0)
  match bracketed with
  | Except.error e => Except.error e
  | Except.ok (host, j, k) =>
    if 0 ≤ indexByte '[' (hostport.drop j) then Except.error "unexpected '[' in address"
    else if 0 ≤ indexByte ']' (hostport.drop k) then Except.error "unexpected ']' in address"
    else Except.ok (host, hostport.drop (i.toNat + 1))

/-- `net.SplitHostPort` on strings. -/
def SplitHostPort (hostport : String) : Except String (String × String) :=
  match splitHostPortChars hostport.data with
  | Except.error e => Except.error e
  | Except.ok (h, p) => Except.ok (String.mk h, String.mk p)

/-! ## Redirect policies (`http_redirection.go`) -/

/-- The text has none of the characters `:`, `[`, `]`. -/
def PlainChars (s : String) : Prop := ':' ∉ s.data ∧ '[' ∉ s.data ∧ ']' ∉ s.data

instance (s : String) : Decidable (PlainChars s) := by
  unfold PlainChars; infer_instance

/-- An `http.Header` field: `none` is the nil map, which can be read and
ranged over like an empty map but not assigned to. -/
abbrev Header := Option (GoMap (List String))

/-- The entries a `range` loop over the header visits (none for a nil map). -/
def headerEntries (h : Header) : List (String × List String) :=
  match h with
  | none => []
  | some m => m.entries

/-- The read `v, ok := h[k]` (a nil map has no key). -/
def headerGet (h : Header) (k : String) : Option (List String) :=
  match h with
  | none => none
  | some m => m.get k

/-- Representation invariant of the header: no key occurs twice. -/
def headerWellFormed (h : Header) : Prop := ((headerEntries h).map Prod.fst).Nodup

instance (h : Header) : Decidable (headerWellFormed h) := by
  unfold headerWellFormed; infer_instance

/-- The parts of `*http.Request` the policies touch: `URL.Host` and `Header`. -/
structure RedirectRequest where
  Host : String
  Header : Header
  deriving Repr, DecidableEq

/-- `getHostname`: the port is split off only when a `:` occurs past the
first position; the three results of `SplitHostPort` are assigned with the
error dropped, so a failed split leaves the empty host. -/
def getHostname (cf : CaseFolding) (host : String) : String :=
  let host :=
    if indexByte ':' host.data > 0 then
      match SplitHostPort host with
      | Except.ok (h, _) => h
      | Except.error _ => ""
    else host
  cf.toLower host

/-- A `*http.Request` argument: `none` stands for a pointer from which no URL
host can be read (the request is nil, or its `URL` is), so that `req.URL.Host`
is a nil dereference. -/
abbrev RequestRef := Option RedirectRequest

/-- The loop `for key, val := range pre.Header { cur.Header[key] = val }` on
the entries still to visit: an assignment into a nil map is a run-time fault. -/
def rangeAssign : List (String × List String) → Header → GoResult Header
  | [], dst => GoResult.ret dst
  | (key, val) :: rest, dst =>
    match dst with
    | none => GoResult.fault "assignment to entry in nil map"
    | some m => rangeAssign rest (some (m.set key val))

/-- `checkHostAndAddHeaders`: the new state of `cur` (`pre` is only read), or
the fault of the read `cur.URL.Host`, of the read `pre.URL.Host` or of the
assignment. -/
def checkHostAndAddHeaders (cf : CaseFolding) (cur pre : RequestRef) : GoResult RequestRef :=
  match cur with
  | none => GoResult.fault "nil pointer dereference"
  | some c =>
    let curHostname := getHostname cf c.Host
    match pre with
    | none => GoResult.fault "nil pointer dereference"
    | some p =>
      let preHostname := getHostname cf p.Host
      if cf.equalFold curHostname preHostname then
        match rangeAssign (headerEntries p.Header) c.Header with
        | GoResult.fault why => GoResult.fault why
        | GoResult.ret hdr => GoResult.ret (some { c with Header := hdr })
      else GoResult.ret (some c)

/-- State after `Apply`: the returned error (`none` is `nil`), the candidate
and the history. -/
structure ApplyResult where
  err : Option GoError
  req : RequestRef
  via : List RequestRef
  deriving Repr, DecidableEq

/-- `FlexibleRedirectPolicy(noOfRedirect).Apply(req, via)`; the history is
only read. -/
def FlexibleRedirectPolicy (cf : CaseFolding) (noOfRedirect : Int)
    (req : RequestRef) (via : List RequestRef) : GoResult ApplyResult :=
  if (via.length : Int) ≥ noOfRedirect then
    GoResult.ret ⟨some ("stopped after " ++ toString noOfRedirect ++ " redirects"), req, via⟩
  else
    match goIndex via 0 with
    | GoResult.fault w => GoResult.fault w
    | GoResult.ret pre =>
      match checkHostAndAddHeaders cf req pre with
      | GoResult.fault w => GoResult.fault w
      | GoResult.ret cur => GoResult.ret ⟨none, cur, via⟩

/-- The URL host is the hostname `h` alone, or `h:port` with a host and a port
that `net.SplitHostPort` takes apart at the colon. -/
def HostForm (host h port : String) : Prop :=
  (host = h ∧ ':' ∉ h.data) ∨
  (host = h ++ ":" ++ port ∧ h ≠ "" ∧ PlainChars h ∧ PlainChars port)

instance (host h port : String) : Decidable (HostForm host h port) := by
  unfold HostForm; infer_instance

/-- The map `hosts` that `DomainCheckRedirectPolicy` builds from its arguments. -/
def domainHosts (cf : CaseFolding) (hostnames : List String) : GoMap Bool :=
  hostnames.foldl (fun hosts h => hosts.set (cf.toLower h) true) GoMap.empty

/-- `DomainCheckRedirectPolicy(hostnames...).Apply(req, via)`; reading a
missing key of a `map[string]bool` gives `false`. -/
def DomainCheckRedirectPolicy (cf : CaseFolding) (hostnames : List String)
    (req : RequestRef) (_via : List RequestRef) : GoResult (Option GoError) :=
  let hosts := domainHosts cf hostnames
  match req with
  | none => GoResult.fault "nil pointer dereference"
  | some r =>
    let ok := (hosts.get (getHostname cf r.Host)).getD false
    if !ok then GoResult.ret (some "redirect is not allowed as per DomainCheckRedirectPolicy")
    else GoResult.ret none

/-! ## Response model (`http_response.go`) -/

/-- The parts of `*http.Response` the response model reads; `ContentType` is
what `Header.Get("Content-Type")` returns. -/
structure RawResponse where
  StatusCode : Int
  ContentType : String
  deriving Repr, DecidableEq

/-- `HttpResponse`: the raw transport result (`none` is `nil`) and the captured
body (`none` is the nil byte slice). -/
structure HttpResponse where
  RawResponse : Option RawResponse
  body : Option String
  deriving Repr, DecidableEq

/-- `len(b)` of a byte slice holding the text `s`. -/
def byteLen (s : String) : Int := (s.utf8ByteSize : Int)

/-- `HttpResponse.ExtractStatusCode`. -/
def HttpResponse.ExtractStatusCode (r : HttpResponse) : Int :=
  match r.RawResponse with
  | none => 0
  | some raw => raw.StatusCode

/-- `HttpResponse.IsSuccess`. -/
def HttpResponse.IsSuccess (r : HttpResponse) : Bool :=
  r.ExtractStatusCode > 199 && r.ExtractStatusCode < 300

/-- `HttpResponse.IsError`. -/
def HttpResponse.IsError (r : HttpResponse) : Bool :=
  r.ExtractStatusCode > 399

/-- `unicode.IsSpace`, the white space `strings.TrimSpace` removes. -/
def isGoSpace (c : Char) : Bool :=
  let n := c.toNat
  n = 0x09 || n = 0x0A || n = 0x0B || n = 0x0C || n = 0x0D || n = 0x20 || n = 0x85 ||
  n = 0xA0 || n = 0x1680 || (0x2000 ≤ n && n ≤ 0x200A) || n = 0x2028 || n = 0x2029 ||
  n = 0x202F || n = 0x205F || n = 0x3000

/-- `strings.TrimSpace`. -/
def trimSpace (s : String) : String :=
  String.mk ((s.data.dropWhile isGoSpace).reverse.dropWhile isGoSpace).reverse

/-- `HttpResponse.ExtractBodyAsString`. -/
def HttpResponse.ExtractBodyAsString (r : HttpResponse) : String :=
  match r.body with
  | none => ""
  | some b => trimSpace b

/-- `r.ExtractHeader().Get(hdrContentTypeKey)`: empty without a raw response. -/
def HttpResponse.contentType (r : HttpResponse) : String :=
  match r.RawResponse with
  | none => ""
  | some raw => raw.ContentType

/-- Collaborators of the body formatter that live outside the source files:
`IsJSONType` and `json.Indent(out, body, "", "   ")`. -/
structure BodyTools where
  IsJSONType : String → Bool
  jsonIndent : String → Except GoError String

/-- `HttpResponse.fmtBodyString`. -/
def HttpResponse.fmtBodyString (t : BodyTools) (r : HttpResponse) (sl : Int) : String :=
  match r.body with
  | some b =>
    if byteLen b > sl then
      "***** RESPONSE TOO LARGE (size - " ++ toString (byteLen b) ++ ") *****"
    else
      let ct := r.contentType
      if t.IsJSONType ct then
        match t.jsonIndent b with
        | Except.error err =>
          "*** ExtractError: Unable to format response body - \"" ++ err ++
            "\" ***\n\nLog ExtractBody as-is:\n" ++ r.ExtractBodyAsString
        | Except.ok out => out
      else r.ExtractBodyAsString
  | none => "***** NO CONTENT *****"

/-- State of the formatting loop of `json.Indent`: the output, the scanner's
place (inside a string literal, after a backslash, number of open brackets,
whether the top-level value has begun) and the loop's `needIndent`, `depth`. -/
structure IndentState where
  out : List Char
  inString : Bool
  escaped : Bool
  nesting : Nat
  begun : Bool
  needIndent : Bool
  depth : Nat

/-- `appendNewline` of `encoding/json` with an empty line start and the
three-blank indent the formatter passes. -/
def appendNewline (dst : List Char) (depth : Nat) : List Char :=
  dst ++ '\n' :: (List.replicate depth [' ', ' ', ' ']).flatten

/-- One byte of the loop of `json.Indent` on well-formed JSON text: bytes of a
string literal are copied, white space before and inside the top-level value
is skipped, white space after it is copied, and line breaks are placed around
the punctuation. -/
def indentStep (st : IndentState) (c : Char) : IndentState :=
  if st.inString then
    if st.escaped then { st with out := st.out ++ [c], escaped := false }
    else if c = '\\' then { st with out := st.out ++ [c], escaped := true }
    else if c = '"' then { st with out := st.out ++ [c], inString := false }
    else { st with out := st.out ++ [c] }
  else if c = ' ' || c = '\t' || c = '\r' || c = '\n' then
    if st.begun && st.nesting = 0 then { st with out := st.out ++ [c] } else st
  else
    let st := { st with begun := true }
    let st := if st.needIndent && c != '}' && c != ']' then
        { st with needIndent := false, depth := st.depth + 1,
                  out := appendNewline st.out (st.depth + 1) }
      else st
    if c = '"' then { st with out := st.out ++ [c], inString := true }
    else if c = '{' || c = '[' then
      { st with out := st.out ++ [c], needIndent := true, nesting := st.nesting + 1 }
    else if c = ',' then { st with out := appendNewline (st.out ++ [c]) st.depth }
    else if c = ':' then { st with out := st.out ++ [c, ' '] }
    else if c = '}' || c = ']' then
      if st.needIndent then
        { st with out := st.out ++ [c], needIndent := false, nesting := st.nesting - 1 }
      else
        { st with out := appendNewline st.out (st.depth - 1) ++ [c], depth := st.depth - 1,
                  nesting := st.nesting - 1 }
    else { st with out := st.out ++ [c] }

/-- What `json.Indent(out, body, "", "   ")` writes for well-formed JSON text
(for other text the library returns a syntax error instead). -/
def indentWellFormedJSON (body : String) : String :=
  String.mk (body.data.foldl indentStep ⟨[], false, false, 0, false, false, 0⟩).out

/-- Body tools for a response whose body is well-formed JSON and whose
content type is a JSON type exactly when it is `application/json`. -/
def sampleBodyTools : BodyTools where
  IsJSONType := fun ct => ct == "application/json"
  jsonIndent := fun b => Except.ok (indentWellFormedJSON b)

/-! ## Timing breakdown (`http_request.go`, `TraceInfo`) -/

/-- A `time.Time` as the count of nanoseconds since the zero instant, so that
`IsZero` is being `0`. -/
abbrev GoTime := Int

/-- Smallest `time.Duration` (an `int64` of nanoseconds). -/
def minDuration : Int := -9223372036854775808

/-- Largest `time.Duration`. -/
def maxDuration : Int := 9223372036854775807

/-- `t.Sub(u)`: the difference, saturated to the range of `time.Duration`. -/
def GoTime.Sub (t u : GoTime) : Int :=
  if t - u < minDuration then minDuration
  else if t - u > maxDuration then maxDuration
  else t - u

/-- `t.IsZero()`. -/
def GoTime.IsZero (t : GoTime) : Bool := t == 0

/-- `httptrace.GotConnInfo`; `Conn` holds the remote address of the
connection, `none` for a nil connection. -/
structure GotConnInfo where
  Conn : Option String
  Reused : Bool
  WasIdle : Bool
  IdleTime : Int
  deriving Repr, DecidableEq

/-- The `clientTrace` record whose fields `TraceInfo` reads. -/
structure ClientTrace where
  getConn : GoTime
  dnsStart : GoTime
  dnsDone : GoTime
  connectDone : GoTime
  tlsHandshakeStart : GoTime
  tlsHandshakeDone : GoTime
  gotConn : GoTime
  gotFirstResponseByte : GoTime
  endTime : GoTime
  gotConnInfo : GotConnInfo
  deriving Repr, DecidableEq

/-- The `HttpTracing` record that `TraceInfo` fills. -/
structure HttpTracing where
  DNSLookup : Int
  ConnTime : Int
  TCPConnTime : Int
  TLSHandshake : Int
  ServerTime : Int
  ResponseTime : Int
  TotalTime : Int
  IsConnReused : Bool
  IsConnWasIdle : Bool
  ConnIdleTime : Int
  RequestAttempt : Int
  RemoteAddr : Option String
  deriving Repr, DecidableEq

/-- The zero value `HttpTracing{}`. -/
def HttpTracing.zero : HttpTracing :=
  ⟨0, 0, 0, 0, 0, 0, 0, false, false, 0, 0, none⟩

/-- `HttpRequest.TraceInfo`, from the request's `clientTrace` and `Attempt`. -/
def TraceInfo (clientTrace : Option ClientTrace) (Attempt : Int) : HttpTracing :=
  match clientTrace with
  | none => HttpTracing.zero
  | some ct =>
    let ti : HttpTracing :=
      { HttpTracing.zero with
        DNSLookup := ct.dnsDone.Sub ct.dnsStart
        TLSHandshake := ct.tlsHandshakeDone.Sub ct.tlsHandshakeStart
        ServerTime := ct.gotFirstResponseByte.Sub ct.gotConn
        IsConnReused := ct.gotConnInfo.Reused
        IsConnWasIdle := ct.gotConnInfo.WasIdle
        ConnIdleTime := ct.gotConnInfo.IdleTime
        RequestAttempt := Attempt }
    let ti := if ct.gotConnInfo.Reused then { ti with TotalTime := ct.endTime.Sub ct.getConn }
      else { ti with TotalTime := ct.endTime.Sub ct.dnsStart }
    let ti := if !ct.connectDone.IsZero then { ti with TCPConnTime := ct.connectDone.Sub ct.dnsDone }
      else ti
    let ti := if !ct.gotConn.IsZero then { ti with ConnTime := ct.gotConn.Sub ct.getConn } else ti
    let ti := if !ct.gotFirstResponseByte.IsZero then
        { ti with ResponseTime := ct.endTime.Sub ct.gotFirstResponseByte }
      else ti
    match ct.gotConnInfo.Conn with
    | some addr => { ti with RemoteAddr := some addr }
    | none => ti

/-- A trace of an exchange that got a connection and sent the request but
never saw a response byte (times in nanoseconds since the zero instant). -/
def stalledTrace : ClientTrace where
  getConn := 63800000000000000000
  dnsStart := 63800000000001000000
  dnsDone := 63800000000002000000
  connectDone := 63800000000003000000
  tlsHandshakeStart := 63800000000003000000
  tlsHandshakeDone := 63800000000004000000
  gotConn := 63800000000004000000
  gotFirstResponseByte := 0
  endTime := 63800000000005000000
  gotConnInfo := ⟨some "192.0.2.1:443", false, false, 0⟩

/-! ## Execution engine (`http_request.go`, `Execute`) -/

/-- The `SRVRecord` of a request. -/
structure SRVRecord where
  Service : String
  Domain : String
  deriving Repr, DecidableEq

/-- The fields of `HttpRequest` that `Execute` reads or writes. -/
structure HttpRequest where
  URL : String
  Method : String
  Attempt : Int
  isMultiPart : Bool
  SRV : Option SRVRecord
  deriving Repr, DecidableEq

/-- The fields of the owning `HttpClient` that `Execute` reads; `errorHooks`
names the registered error hooks in order of registration. -/
structure HttpClient where
  RetryCount : Int
  scheme : String
  errorHooks : List String
  deriving Repr, DecidableEq

/-- What `Execute` does to the outside, in order. -/
inductive Event where
  | lookupSRV (service proto domain : String)
  | transport (req : HttpRequest)
  | errorHook (hook : String) (req : HttpRequest) (resp : Option HttpResponse)
      (err : Option GoError)
  | logError (msg : String)
  | retryWait (resp : Option HttpResponse) (err : Option GoError)
  deriving Repr, DecidableEq

/-- Collaborators of `Execute` outside the source files: the resolver
`net.LookupSRV`, the transport call `client.execute`, the unwrapping of the
no-retry decoration, and the verdict of the retry conditions on one attempt.
The resolver gives an error or the records of the answer, of which there is
at least one: Go's resolver reports a name without usable SRV records as an
error. -/
structure Collaborators where
  LookupSRV : String → String → String → Except GoError (NetSRV × List NetSRV)
  execute : HttpRequest → Option HttpResponse × Option GoError
  unwrapNoRetryErr : Option GoError → Option GoError
  needsRetry : Option HttpResponse → Option GoError → Bool

/-- Modelled from the spec: the verb constant `MethodPost` (declared outside
the source files), the verb POST. -/
def MethodPost : String := "POST"

/-- Modelled from the spec: the verb constant `MethodPut`, the verb PUT. -/
def MethodPut : String := "PUT"

/-- Modelled from the spec: the verb constant `MethodPatch`, the verb PATCH. -/
def MethodPatch : String := "PATCH"

/-- Modelled from the spec: `onErrorHooks` (the dispatcher of the client,
outside the source files): every registered error hook is invoked once, in
order, on (request, response-or-nil, error-or-nil). -/
def onErrorHooks (c : HttpClient) (r : HttpRequest) (resp : Option HttpResponse)
    (err : Option GoError) : List Event :=
  c.errorHooks.map (fun hook => Event.errorHook hook r resp err)

/-- Largest `int` of Go on a 64-bit platform. -/
def maxInt64 : Int := 9223372036854775807

/-- An `int` result brought back into the 64-bit range, as Go's arithmetic
wraps around. -/
def wrapInt64 (x : Int) : Int := (x + 9223372036854775808) % 18446744073709551616 - 9223372036854775808

/-- The local variables of `Execute` that the retried closure shares with it,
and the events so far. -/
structure ExecState where
  r : HttpRequest
  resp : Option HttpResponse
  events : List Event
  deriving Repr, DecidableEq

/-- The closure `Execute` hands to `Backoff`: one attempt. It returns the new
state and the attempt's error, or stops with a run-time fault. -/
def attemptOnce (c : HttpClient) (w : Collaborators) (addrs : Option (List NetSRV))
    (url : String) (s : ExecState) : GoResult (ExecState × Option GoError) :=
  let r := { s.r with Attempt := wrapInt64 (s.r.Attempt + 1) }
  match selectAddr c.scheme addrs url r.Attempt with
  | GoResult.fault why => GoResult.fault why
  | GoResult.ret u =>
    let r := { r with URL := u }
    let (resp, err) := w.execute r
    let events := s.events ++ [Event.transport r]
    let events := match err with
      | some e => events ++ [Event.logError (e ++ ", Attempt " ++ toString r.Attempt)]
      | none => events
    GoResult.ret (⟨r, resp, events⟩, err)

/-- Modelled from the spec: `Backoff` (the retry controller, outside the source
files). It runs the operation, and after an attempt for which the retry
conditions ask for another try while budget remains it waits, fires the retry
hooks and loops; `budget` is the number of attempts left, the retry budget
plus one at the start. The result is the error of the last attempt. -/
def Backoff (w : Collaborators)
    (operation : ExecState → GoResult (ExecState × Option GoError)) :
    Nat → ExecState → GoResult (ExecState × Option GoError)
  | 0, s => GoResult.ret (s, none)
  | budget + 1, s =>
    match operation s with
    | GoResult.fault why => GoResult.fault why
    | GoResult.ret (s1, err) =>
      if budget = 0 || !w.needsRetry s1.resp err then GoResult.ret (s1, err)
      else Backoff w operation budget
        { s1 with events := s1.events ++ [Event.retryWait s1.resp err] }

/-- What a call of `Execute` leaves behind: the request, the events, and the
returned pair, or the run-time fault that ended the call (after a fault inside
the retry loop the request and events are those from before the loop). -/
structure ExecResult where
  r : HttpRequest
  events : List Event
  returned : GoResult (Option HttpResponse × Option GoError)
  deriving Repr, DecidableEq

/-- The part of `Execute` after the address resolution. -/
def executeResolved (c : HttpClient) (w : Collaborators) (r : HttpRequest)
    (method url : String) (addrs : Option (List NetSRV)) (events : List Event) : ExecResult :=
  let r := { r with Method := method }
  match selectAddr c.scheme addrs url 0 with
  | GoResult.fault why => ⟨r, events, GoResult.fault why⟩
  | GoResult.ret u =>
    let r := { r with URL := u }
    if c.RetryCount = 0 then
      let r := { r with Attempt := 1 }
      let (resp, err) := w.execute r
      ⟨r, events ++ [Event.transport r] ++ onErrorHooks c r resp (w.unwrapNoRetryErr err),
        GoResult.ret (resp, w.unwrapNoRetryErr err)⟩
    else
      match Backoff w (attemptOnce c w addrs url) (c.RetryCount + 1).toNat ⟨r, none, events⟩ with
      | GoResult.fault why => ⟨r, events, GoResult.fault why⟩
      | GoResult.ret (s, err) =>
        ⟨s.r, s.events ++ onErrorHooks c s.r s.resp (w.unwrapNoRetryErr err),
          GoResult.ret (s.resp, w.unwrapNoRetryErr err)⟩

/-- `HttpRequest.Execute` on a request of the client `c` (the request's
`client` field). -/
def Execute (c : HttpClient) (w : Collaborators) (r : HttpRequest) (method url : String) :
    ExecResult :=
  if r.isMultiPart && !(method == MethodPost || method == MethodPut || method == MethodPatch) then
    ⟨r, [], GoResult.ret (none, some ("multipart content is not allowed in HTTP verb [" ++ method ++ "]"))⟩
  else
    match r.SRV with
    | some srv =>
      match w.LookupSRV srv.Service "tcp" srv.Domain with
      | Except.error err =>
        ⟨r, [Event.lookupSRV srv.Service "tcp" srv.Domain] ++ onErrorHooks c r none (some err),
          GoResult.ret (none, some err)⟩
      | Except.ok (a, rest) =>
        executeResolved c w r method url (some (a :: rest))
          [Event.lookupSRV srv.Service "tcp" srv.Domain]
    | none => executeResolved c w r method url none []

/-- The invocations of error hooks among the events, in order. -/
def hookCalls : List Event →
    List (String × HttpRequest × Option HttpResponse × Option GoError)
  | [] => []
  | Event.errorHook hook r resp err :: rest => (hook, r, resp, err) :: hookCalls rest
  | _ :: rest => hookCalls rest

/-- The requests handed to the transport, in order. -/
def transportCalls : List Event → List HttpRequest
  | [] => []
  | Event.transport r :: rest => r :: transportCalls rest
  | _ :: rest => transportCalls rest

/-- A resolver that answers every query with the given candidates (or with an
error when there are none), a transport that answers 200 with no body, no
no-retry decoration, and no retry. -/
def sampleWorld (addrs : List NetSRV) : Collaborators where
  LookupSRV := fun _ _ _ =>
    match addrs with
    | [] => Except.error "no such host"
    | a :: rest => Except.ok (a, rest)
  execute := fun _ => (some ⟨some ⟨200, ""⟩, none⟩, none)
  unwrapNoRetryErr := fun e => e
  needsRetry := fun _ _ => false

/-- Two SRV candidates. -/
def twoCandidates : List NetSRV := [⟨"a.example.", 8080⟩, ⟨"b.example.", 8081⟩]

/-- Three SRV candidates. -/
def threeCandidates : List NetSRV :=
  [⟨"a.example.", 8080⟩, ⟨"b.example.", 8081⟩, ⟨"c.example.", 8082⟩]

/-- A client with one registered error hook. -/
def sampleClient (retries : Int) : HttpClient := ⟨retries, "http", ["onError"]⟩

/-! ## Theorems: address rotator -/

/-- A nil candidate slice (no SRV in use) leaves the path as it is. -/
theorem selectAddr_nil (scheme path : String) (attempt : Int) :
    selectAddr scheme none path attempt = GoResult.ret path := rfl

/-- For candidates that are present and an attempt that is not negative the
rotator composes the URL from the candidate at `attempt mod len`. -/
theorem selectAddr_rotates (scheme path : String) (a : NetSRV) (rest : List NetSRV)
    (attempt : Nat) :
    ∃ c, (a :: rest).get? (attempt % (a :: rest).length) = some c ∧
      selectAddr scheme (some (a :: rest)) path (attempt : Int) =
        GoResult.ret (scheme ++ "://" ++ trimRightDots c.Target ++ ":" ++ toString c.Port ++
          "/" ++ trimLeftSlashes path) := by
  have hlen : 0 < (a :: rest).length := by simp
  have hlt : attempt % (a :: rest).length < (a :: rest).length := Nat.mod_lt _ hlen
  obtain ⟨c, hc⟩ : ∃ c, (a :: rest).get? (attempt % (a :: rest).length) = some c :=
    ⟨_, List.get?_eq_get hlt⟩
  refine ⟨c, hc, ?_⟩
  have hne : ((a :: rest).length : Int) ≠ 0 := by exact_mod_cast hlen.ne.symm
  have hmod : Int.tmod (attempt : Int) ((a :: rest).length : Int)
      = ((attempt % (a :: rest).length : Nat) : Int) := by
    rw [Int.tmod_eq_emod (by positivity) (by positivity)]
    norm_cast
  have hnn : ¬ ((attempt % (a :: rest).length : Nat) : Int) < 0 := by
    have := Int.ofNat_nonneg (attempt % (a :: rest).length)
    omega
  unfold selectAddr goMod
  simp only [hne, if_false, hmod]
  unfold goIndex
  simp only [hnn, if_false, Int.toNat_ofNat, hc]

/-- A target with one trailing dot loses it, a target without a trailing dot
is kept as it is. -/
theorem trimRightDots_at_most_one_dot (t : List Char) (h : t.getLast? ≠ some '.') :
    trimRightDots (String.mk (t ++ ['.'])) = String.mk t ∧
    trimRightDots (String.mk t) = String.mk t := by
  have hrev : t.reverse.dropWhile (fun c => c == '.') = t.reverse := by
    cases hr : t.reverse with
    | nil => rfl
    | cons x xs =>
      have hx : t.getLast? = some x := by
        rw [← List.head?_reverse, hr]
        rfl
      have hne : (x == '.') = false := by
        rw [beq_eq_false_iff_ne]
        exact fun e => h (by rw [hx, e])
      simp only [List.dropWhile, hne]
  constructor
  · simp only [trimRightDots, List.reverse_append, List.reverse_cons, List.reverse_nil,
      List.nil_append, List.singleton_append]
    simp [List.dropWhile, hrev]
  · simp only [trimRightDots, hrev, List.reverse_reverse]

/-- Claim C1, the case the code misses: a candidate slice that is empty but
not nil passes the `addrs == nil` test, and `attempt % len(addrs)` then divides
by zero, so the call faults instead of returning the path unchanged. -/
theorem selectAddr_empty_not_nil_faults (scheme path : String) (attempt : Int) :
    selectAddr scheme (some []) path attempt = GoResult.fault "integer divide by zero" := by
  simp [selectAddr, goMod]

/-- With two candidates the attempts 0, 1, 2, 3 take them in turn. -/
theorem selectAddr_two_candidates :
    [0, 1, 2, 3].map (selectAddr "http" (some twoCandidates) "/x") =
      [GoResult.ret "http://a.example:8080/x", GoResult.ret "http://b.example:8081/x",
       GoResult.ret "http://a.example:8080/x", GoResult.ret "http://b.example:8081/x"] := by
  decide

/-! ## Theorems: response classification -/

/-- Claim C8: `IsSuccess` holds exactly for status codes in [200, 300) and
`IsError` exactly for codes of at least 400, the code of a response without a
raw transport result being 0; no response is both, 204 is a success only, 301
is neither, 404 and 500 are errors only. -/
theorem isSuccess_isError_classification (r : HttpResponse) :
    (r.IsSuccess = true ↔ 200 ≤ r.ExtractStatusCode ∧ r.ExtractStatusCode < 300) ∧
    (r.IsError = true ↔ 400 ≤ r.ExtractStatusCode) ∧
    (r.RawResponse = none → r.ExtractStatusCode = 0) ∧
    (300 ≤ r.ExtractStatusCode → r.ExtractStatusCode < 400 →
      r.IsSuccess = false ∧ r.IsError = false) ∧
    ¬ (r.IsSuccess = true ∧ r.IsError = true) ∧
    (∀ ct b, HttpResponse.IsSuccess ⟨some ⟨204, ct⟩, b⟩ = true ∧
      HttpResponse.IsError ⟨some ⟨204, ct⟩, b⟩ = false ∧
      HttpResponse.IsSuccess ⟨some ⟨301, ct⟩, b⟩ = false ∧
      HttpResponse.IsError ⟨some ⟨301, ct⟩, b⟩ = false ∧
      HttpResponse.IsSuccess ⟨some ⟨404, ct⟩, b⟩ = false ∧
      HttpResponse.IsError ⟨some ⟨404, ct⟩, b⟩ = true ∧
      HttpResponse.IsSuccess ⟨some ⟨500, ct⟩, b⟩ = false ∧
      HttpResponse.IsError ⟨some ⟨500, ct⟩, b⟩ = true) := by
  refine ⟨?_, ?_, ?_, ?_, ?_, ?_⟩
  · simp only [HttpResponse.IsSuccess, Bool.and_eq_true, decide_eq_true_eq]
    omega
  · simp only [HttpResponse.IsError, decide_eq_true_eq]
    omega
  · intro h
    simp [HttpResponse.ExtractStatusCode, h]
  · intro h1 h2
    simp only [HttpResponse.IsSuccess, HttpResponse.IsError, Bool.and_eq_false_iff,
      decide_eq_false_iff_not]
    omega
  · simp only [HttpResponse.IsSuccess, HttpResponse.IsError, Bool.and_eq_true, decide_eq_true_eq]
    omega
  · intro ct b
    simp [HttpResponse.IsSuccess, HttpResponse.IsError, HttpResponse.ExtractStatusCode]

/-! ## Theorems: body formatter of the response -/

/-- A response without a captured body renders as the fixed placeholder. -/
theorem fmtBodyString_no_content (t : BodyTools) (raw : Option RawResponse) (sl : Int) :
    HttpResponse.fmtBodyString t ⟨raw, none⟩ sl = "***** NO CONTENT *****" := rfl

/-- A body larger than the limit renders as the placeholder with its size. -/
theorem fmtBodyString_too_large (t : BodyTools) (raw : Option RawResponse) (b : String)
    (sl : Int) (h : byteLen b > sl) :
    HttpResponse.fmtBodyString t ⟨raw, some b⟩ sl =
      "***** RESPONSE TOO LARGE (size - " ++ toString (byteLen b) ++ ") *****" := by
  simp [HttpResponse.fmtBodyString, h]

/-- Claim C9, the case the code misses: a JSON body of 7 bytes rendered with
the limit 7 passes the size test on the raw body, is re-indented to 13 bytes,
and is returned as such: the response formatter has no size test after
rendering, unlike the request formatter. -/
theorem fmtBodyString_indented_exceeds_limit :
    HttpResponse.fmtBodyString sampleBodyTools
        ⟨some ⟨200, "application/json"⟩, some "\x7b\"a\":1\x7d"⟩ 7 = "\x7b\n   \"a\": 1\n\x7d" ∧
    byteLen "\x7b\"a\":1\x7d" = 7 ∧
    byteLen "\x7b\n   \"a\": 1\n\x7d" = 13 := by
  decide

/-! ## Theorems: timing breakdown -/

/-- Without a recorded trace `TraceInfo` is the zero value. -/
theorem traceInfo_no_trace (attempt : Int) : TraceInfo none attempt = HttpTracing.zero := rfl

/-- The TCP connect time, connection time and response time are guarded: each
is 0 when its completion timestamp is the zero time. -/
theorem traceInfo_guarded_phases (ct : ClientTrace) (attempt : Int) :
    (ct.connectDone = 0 → (TraceInfo (some ct) attempt).TCPConnTime = 0) ∧
    (ct.gotConn = 0 → (TraceInfo (some ct) attempt).ConnTime = 0) ∧
    (ct.gotFirstResponseByte = 0 → (TraceInfo (some ct) attempt).ResponseTime = 0) := by
  refine ⟨?_, ?_, ?_⟩ <;> intro h <;>
    cases hconn : ct.gotConnInfo.Conn <;>
    by_cases h1 : ct.gotConnInfo.Reused = true <;>
    by_cases h2 : ct.connectDone = 0 <;>
    by_cases h3 : ct.gotConn = 0 <;>
    by_cases h4 : ct.gotFirstResponseByte = 0 <;>
    simp_all [TraceInfo, GoTime.IsZero, HttpTracing.zero]

/-- Claim C10, the case the code misses: for an exchange that got a connection
but never a response byte, the completion timestamp of the server phase is the
zero time and the reported server time is the most negative duration, not 0:
the DNS, TLS and server durations are subtracted without the test on the
completion timestamp that the TCP connect time has. -/
theorem traceInfo_server_time_unguarded :
    stalledTrace.gotFirstResponseByte = 0 ∧
    (TraceInfo (some stalledTrace) 1).ServerTime = minDuration ∧
    (TraceInfo (some stalledTrace) 1).ServerTime < 0 := by
  decide

/-! ## Theorems: validation in `Execute` -/

/-- Claim C4: for a request with multipart content and a method other than
POST, PUT and PATCH, `Execute` returns a nil response and the validation
error at once: no event happens (no error hook, no SRV lookup, no transport
call) and the request, with its Method, URL and Attempt, is as before. -/
theorem execute_multipart_validation (c : HttpClient) (w : Collaborators) (r : HttpRequest)
    (method url : String) (hmp : r.isMultiPart = true)
    (h1 : method ≠ "POST") (h2 : method ≠ "PUT") (h3 : method ≠ "PATCH") :
    Execute c w r method url =
      ⟨r, [], GoResult.ret
        (none, some ("multipart content is not allowed in HTTP verb [" ++ method ++ "]"))⟩ := by
  simp [Execute, hmp, MethodPost, MethodPut, MethodPatch, h1, h2, h3]

/-- Claim C4 at a multipart GET on a request with an SRV target. -/
theorem execute_multipart_validation_witness :
    Execute (sampleClient 3) (sampleWorld twoCandidates)
        ⟨"/old", "HEAD", 4, true, some ⟨"svc", "example"⟩⟩ "GET" "/x" =
      ⟨⟨"/old", "HEAD", 4, true, some ⟨"svc", "example"⟩⟩, [], GoResult.ret
        (none, some ("multipart content is not allowed in HTTP verb [" ++ "GET" ++ "]"))⟩ :=
  execute_multipart_validation _ _ _ "GET" "/x" rfl (by decide) (by decide) (by decide)

/-! ## Lemmas on Go maps -/

theorem GoMap.getEntries_setEntries {V : Type} (k k2 : String) (v : V)
    (l : List (String × V)) :
    GoMap.getEntries k2 (GoMap.setEntries k v l) =
      if k = k2 then some v else GoMap.getEntries k2 l := by
  induction l with
  | nil => simp [GoMap.setEntries, GoMap.getEntries]
  | cons e rest ih =>
    obtain ⟨k1, v1⟩ := e
    by_cases h1 : k1 = k
    · subst h1
      by_cases h2 : k1 = k2 <;> simp [GoMap.setEntries, GoMap.getEntries, h2]
    · by_cases h2 : k = k2
      · subst h2
        simp [GoMap.setEntries, GoMap.getEntries, h1, ih]
      · by_cases h3 : k1 = k2
        · subst h3
          simp [GoMap.setEntries, GoMap.getEntries, h1, h2]
        · simp [GoMap.setEntries, GoMap.getEntries, h1, h2, h3, ih]

theorem GoMap.get_set {V : Type} (m : GoMap V) (k k2 : String) (v : V) :
    (m.set k v).get k2 = if k = k2 then some v else m.get k2 :=
  GoMap.getEntries_setEntries k k2 v m.entries

theorem GoMap.getEntries_eq_none {V : Type} (k : String) (l : List (String × V))
    (h : k ∉ l.map Prod.fst) : GoMap.getEntries k l = none := by
  induction l with
  | nil => rfl
  | cons e rest ih =>
    obtain ⟨k1, v1⟩ := e
    simp only [List.map_cons, List.mem_cons, not_or] at h
    have h1 : ¬ k1 = k := fun hk => h.1 hk.symm
    simp [GoMap.getEntries, h1, ih h.2]

/-- A `range` loop that assigns every entry of `src` into `dst`: afterwards a
key of `src` has the value of `src`, every other key the value it had. -/
theorem GoMap.get_foldl_set {V : Type} (src : List (String × V))
    (hnd : (src.map Prod.fst).Nodup) (dst : GoMap V) (k : String) :
    (src.foldl (fun hdr kv => hdr.set kv.1 kv.2) dst).get k =
      match GoMap.getEntries k src with
      | some v => some v
      | none => dst.get k := by
  induction src generalizing dst with
  | nil => simp [GoMap.getEntries]
  | cons e rest ih =>
    obtain ⟨k1, v1⟩ := e
    simp only [List.map_cons, List.nodup_cons] at hnd
    simp only [List.foldl_cons]
    rw [ih hnd.2]
    by_cases h1 : k1 = k
    · subst h1
      simp [GoMap.getEntries, GoMap.getEntries_eq_none k1 rest hnd.1, GoMap.get_set]
    · simp only [GoMap.getEntries, h1, if_false, GoMap.get_set]

/-! ## Lemmas on the byte searches and on `SplitHostPort` -/

theorem indexByte_ge_neg_one (c : Char) (l : List Char) : -1 ≤ indexByte c l := by
  induction l with
  | nil => simp [indexByte]
  | cons x xs ih =>
    simp only [indexByte]
    split
    · omega
    · split <;> omega

theorem indexByte_of_not_mem (c : Char) (l : List Char) (h : c ∉ l) : indexByte c l = -1 := by
  induction l with
  | nil => rfl
  | cons x xs ih =>
    simp only [List.mem_cons, not_or] at h
    have hx : ¬ x = c := fun e => h.1 e.symm
    simp [indexByte, hx, ih h.2]

theorem indexByte_append_of_not_mem (c : Char) (h p : List Char) (hc : c ∉ h) :
    indexByte c (h ++ c :: p) = (h.length : Int) := by
  induction h with
  | nil => simp [indexByte]
  | cons x xs ih =>
    simp only [List.mem_cons, not_or] at hc
    have hx : ¬ x = c := fun e => hc.1 e.symm
    have hnn : ¬ ((xs.length : Int) < 0) := by
      have := Int.ofNat_nonneg xs.length
      omega
    have e : indexByte c (xs.append (c :: p)) = (xs.length : Int) := ih hc.2
    simp only [List.cons_append, indexByte, hx, if_false, List.length_cons]
    rw [e, if_neg hnn]
    push_cast
    rfl

theorem indexByte_append_not_mem (c d : Char) (h p : List Char) (hh : c ∉ h) (hd : c ≠ d)
    (hp : c ∉ p) : indexByte c (h ++ d :: p) = -1 := by
  apply indexByte_of_not_mem
  simp only [List.mem_append, List.mem_cons, not_or]
  exact ⟨hh, hd, hp⟩

theorem lastIndexByte_of_not_mem (c : Char) (l : List Char) (h : c ∉ l) :
    lastIndexByte c l = -1 := by
  induction l with
  | nil => rfl
  | cons x xs ih =>
    simp only [List.mem_cons, not_or] at h
    have hx : ¬ x = c := fun e => h.1 e.symm
    simp [lastIndexByte, hx, ih h.2]

theorem lastIndexByte_append_of_not_mem (c : Char) (h p : List Char) (hp : c ∉ p) :
    lastIndexByte c (h ++ c :: p) = (h.length : Int) := by
  induction h with
  | nil => simp [lastIndexByte, lastIndexByte_of_not_mem c p hp]
  | cons x xs ih =>
    have hnn : (0 : Int) ≤ (xs.length : Int) := Int.ofNat_nonneg xs.length
    have e : lastIndexByte c (xs.append (c :: p)) = (xs.length : Int) := ih
    simp only [List.cons_append, lastIndexByte, List.length_cons]
    rw [e, if_pos hnn]
    push_cast
    rfl

/-- A host without `:`, `[` and `]` followed by `:` and a port without those
characters splits into that host and that port. -/
theorem splitHostPortChars_plain (h p : List Char)
    (hc : ':' ∉ h) (hl : '[' ∉ h) (hr : ']' ∉ h)
    (pc : ':' ∉ p) (pl : '[' ∉ p) (pr : ']' ∉ p) :
    splitHostPortChars (h ++ ':' :: p) = Except.ok (h, p) := by
  have hi : lastIndexByte ':' (h ++ ':' :: p) = (h.length : Int) :=
    lastIndexByte_append_of_not_mem ':' h p pc
  have hnn : ¬ ((h.length : Int) < 0) := by
    have := Int.ofNat_nonneg h.length
    omega
  have hhead : ¬ ((h ++ ':' :: p).head? = some '[') := by
    cases h with
    | nil => simp
    | cons x xs =>
      simp only [List.mem_cons, not_or] at hl
      simpa using fun e => hl.1 e.symm
  have htake : (h ++ ':' :: p).take h.length = h := by simp
  have hdrop : (h ++ ':' :: p).drop (h.length + 1) = p := by
    rw [← List.drop_drop]
    simp
  have h1 : ¬ (0 ≤ indexByte ':' h) := by
    rw [indexByte_of_not_mem _ _ hc]; decide
  have h2 : ¬ (0 ≤ indexByte '[' (h ++ ':' :: p)) := by
    rw [indexByte_append_not_mem _ _ _ _ hl (by decide) pl]; decide
  have h3 : ¬ (0 ≤ indexByte ']' (h ++ ':' :: p)) := by
    rw [indexByte_append_not_mem _ _ _ _ hr (by decide) pr]; decide
  unfold splitHostPortChars
  simp only [hi, hnn, if_false, hhead, Int.toNat_ofNat, htake, h1, List.drop_zero, h2, h3, hdrop]

/-! ## Theorems: allow-listed domains -/

theorem getHostname_no_colon (cf : CaseFolding) (h : String) (hc : ':' ∉ h.data) :
    getHostname cf h = cf.toLower h := by
  simp [getHostname, indexByte_of_not_mem _ _ hc]

theorem getHostname_host_port (cf : CaseFolding) (h port : String) (hne : h ≠ "")
    (hh : PlainChars h) (hp : PlainChars port) :
    getHostname cf (h ++ ":" ++ port) = cf.toLower h := by
  have hdata : (h ++ ":" ++ port).data = h.data ++ ':' :: port.data := by
    simp [String.data_append]
  have hlen : 0 < h.data.length := by
    cases hd : h.data with
    | nil => exact absurd (String.ext hd) hne
    | cons x xs => simp
  have hidx : indexByte ':' (h ++ ":" ++ port).data > 0 := by
    rw [hdata, indexByte_append_of_not_mem _ _ _ hh.1]
    exact_mod_cast hlen
  have hsplit : SplitHostPort (h ++ ":" ++ port) = Except.ok (h, port) := by
    unfold SplitHostPort
    rw [hdata, splitHostPortChars_plain _ _ hh.1 hh.2.1 hh.2.2 hp.1 hp.2.1 hp.2.2]
  simp only [getHostname, hidx, if_true, hsplit]

theorem domainHosts_get_aux (f : String → String) (hs : List String) (m : GoMap Bool)
    (k : String) :
    (hs.foldl (fun hosts h => hosts.set (f h) true) m).get k =
      if k ∈ hs.map f then some true else m.get k := by
  induction hs generalizing m with
  | nil => simp
  | cons h rest ih =>
    simp only [List.foldl_cons, List.map_cons, List.mem_cons]
    rw [ih, GoMap.get_set]
    by_cases h1 : k ∈ rest.map f
    · simp [h1]
    · by_cases h2 : f h = k
      · simp [h2]
      · have h3 : ¬ k = f h := fun e => h2 e.symm
        simp [h1, h2, h3]

/-- The policy lets a request through exactly when its normalized hostname is
the lower-cased form of an allowed name. -/
theorem domainCheck_iff (cf : CaseFolding) (hostnames : List String) (req : RedirectRequest)
    (via : List RequestRef) :
    (DomainCheckRedirectPolicy cf hostnames (some req) via = GoResult.ret none ↔
      getHostname cf req.Host ∈ hostnames.map cf.toLower) ∧
    (getHostname cf req.Host ∉ hostnames.map cf.toLower →
      DomainCheckRedirectPolicy cf hostnames (some req) via =
        GoResult.ret (some "redirect is not allowed as per DomainCheckRedirectPolicy")) := by
  unfold DomainCheckRedirectPolicy domainHosts
  simp only [domainHosts_get_aux]
  by_cases h : getHostname cf req.Host ∈ hostnames.map cf.toLower
  · simp [h]
  · simp [h, GoMap.get, GoMap.empty, GoMap.getEntries]

/-- Claim C3 fails on hosts of the form `h:port` that `getHostname` does not
split at the colon or splits otherwise: for the host `:8443` (h empty) nothing
is stripped, so the allow-set with the empty name does not admit it; for the
host `[example.com]:8443` the brackets go with the port, so the allow-set
with `example.com` admits it although h is `[example.com]`. -/
theorem domainCheck_host_port_counterexample :
    (":8443" = "" ++ ":" ++ "8443" ∧ ':' ∉ "".data ∧
      asciiCase.toLower "" ∈ [""].map asciiCase.toLower ∧
      DomainCheckRedirectPolicy asciiCase [""] (some ⟨":8443", some ⟨[]⟩⟩) [] ≠
        GoResult.ret none) ∧
    ("[example.com]:8443" = "[example.com]" ++ ":" ++ "8443" ∧ ':' ∉ "[example.com]".data ∧
      asciiCase.toLower "[example.com]" ∉ ["example.com"].map asciiCase.toLower ∧
      DomainCheckRedirectPolicy asciiCase ["example.com"]
          (some ⟨"[example.com]:8443", some ⟨[]⟩⟩) [] =
        GoResult.ret none) := by
  decide

/-- Claim C3 as amended: for every list of allowed hostnames and every
candidate whose URL host is `h` with no `:` in h, or `h:port` with h not
empty and none of `:`, `[`, `]` in h or in the port, `Apply` returns `nil`
if and only if the lower-cased h is the lower-cased form of an allowed
hostname, and the policy's error otherwise, whatever the history. -/
theorem domainCheck_apply (cf : CaseFolding) (hostnames : List String) (h port host : String)
    (header : Header) (via : List RequestRef)
    (hform : (host = h ∧ ':' ∉ h.data) ∨
      (host = h ++ ":" ++ port ∧ h ≠ "" ∧ PlainChars h ∧ PlainChars port)) :
    (DomainCheckRedirectPolicy cf hostnames (some ⟨host, header⟩) via = GoResult.ret none ↔
      cf.toLower h ∈ hostnames.map cf.toLower) ∧
    (cf.toLower h ∉ hostnames.map cf.toLower →
      DomainCheckRedirectPolicy cf hostnames (some ⟨host, header⟩) via =
        GoResult.ret (some "redirect is not allowed as per DomainCheckRedirectPolicy")) := by
  have hn : getHostname cf host = cf.toLower h := by
    rcases hform with ⟨rfl, hc⟩ | ⟨rfl, hne, hh, hp⟩
    · exact getHostname_no_colon cf _ hc
    · exact getHostname_host_port cf _ _ hne hh hp
  have key := domainCheck_iff cf hostnames ⟨host, header⟩ via
  simp only [hn] at key
  exact key

/-- Claim C3 at the allow-set with `example.com` and the host
`EXAMPLE.COM:8443`, which is let through. -/
theorem domainCheck_apply_witness :
    ((("EXAMPLE.COM:8443" : String) = "EXAMPLE.COM" ∧ ':' ∉ "EXAMPLE.COM".data) ∨
      ("EXAMPLE.COM:8443" = "EXAMPLE.COM" ++ ":" ++ "8443" ∧ "EXAMPLE.COM" ≠ "" ∧
        PlainChars "EXAMPLE.COM" ∧ PlainChars "8443")) ∧
    (DomainCheckRedirectPolicy asciiCase ["example.com"]
        (some ⟨"EXAMPLE.COM:8443", some ⟨[]⟩⟩) [] = GoResult.ret none ↔
      asciiCase.toLower "EXAMPLE.COM" ∈ ["example.com"].map asciiCase.toLower) ∧
    (asciiCase.toLower "EXAMPLE.COM" ∉ ["example.com"].map asciiCase.toLower →
      DomainCheckRedirectPolicy asciiCase ["example.com"]
          (some ⟨"EXAMPLE.COM:8443", some ⟨[]⟩⟩) [] =
        GoResult.ret (some "redirect is not allowed as per DomainCheckRedirectPolicy")) :=
  ⟨by decide, domainCheck_apply asciiCase ["example.com"] "EXAMPLE.COM" "8443" "EXAMPLE.COM:8443"
    (some ⟨[]⟩) [] (by decide)⟩

/-- With the allow-set `example.com` the host `EXAMPLE.COM:8443` is let
through and the host `other.com` is refused. -/
theorem domainCheck_samples :
    DomainCheckRedirectPolicy asciiCase ["example.com"]
        (some ⟨"EXAMPLE.COM:8443", some ⟨[]⟩⟩) [] = GoResult.ret none ∧
    DomainCheckRedirectPolicy asciiCase ["example.com"] (some ⟨"other.com", some ⟨[]⟩⟩) [] =
      GoResult.ret (some "redirect is not allowed as per DomainCheckRedirectPolicy") := by
  decide

/-! ## Theorems: bounded redirect policy -/

theorem getHostname_of_hostForm (cf : CaseFolding) (host h port : String)
    (hf : HostForm host h port) : getHostname cf host = cf.toLower h := by
  rcases hf with ⟨rfl, hc⟩ | ⟨rfl, hne, hh, hp⟩
  · exact getHostname_no_colon cf _ hc
  · exact getHostname_host_port cf _ _ hne hh hp

theorem headerGet_eq_getEntries (h : Header) (k : String) :
    headerGet h k = GoMap.getEntries k (headerEntries h) := by
  cases h <;> rfl

theorem rangeAssign_some (es : List (String × List String)) (m : GoMap (List String)) :
    rangeAssign es (some m) =
      GoResult.ret (some (es.foldl (fun hdr kv => hdr.set kv.1 kv.2) m)) := by
  induction es generalizing m with
  | nil => rfl
  | cons e rest ih =>
    obtain ⟨k, v⟩ := e
    simp only [rangeAssign, ih, List.foldl_cons]

theorem rangeAssign_nil_faults (e : String × List String) (es : List (String × List String)) :
    rangeAssign (e :: es) none = GoResult.fault "assignment to entry in nil map" := by
  obtain ⟨k, v⟩ := e
  rfl

/-- After the copy loop has run through, a key of the source has the value of
the source and every other key the value it had. -/
theorem rangeAssign_get (es : List (String × List String)) (hnd : (es.map Prod.fst).Nodup)
    (dst hdr : Header) (hrun : rangeAssign es dst = GoResult.ret hdr) (k : String) :
    headerGet hdr k =
      match GoMap.getEntries k es with
      | some v => some v
      | none => headerGet dst k := by
  cases dst with
  | none =>
    cases es with
    | nil =>
      simp only [rangeAssign, GoResult.ret.injEq] at hrun
      subst hrun
      rfl
    | cons e rest =>
      rw [rangeAssign_nil_faults] at hrun
      exact GoResult.noConfusion hrun
  | some m =>
    rw [rangeAssign_some, GoResult.ret.injEq] at hrun
    subst hrun
    have key := GoMap.get_foldl_set es hnd m k
    simp only [headerGet]
    rw [key]
    cases GoMap.getEntries k es <;> rfl

/-- At or past the limit `Apply` returns the error for every candidate and
every history, the empty one included, and reads nothing from them. -/
theorem flexible_apply_at_limit (cf : CaseFolding) (N : Int) (req : RequestRef)
    (via : List RequestRef) (h : (via.length : Int) ≥ N) :
    FlexibleRedirectPolicy cf N req via =
      GoResult.ret ⟨some ("stopped after " ++ toString N ++ " redirects"), req, via⟩ := by
  simp only [FlexibleRedirectPolicy, h, if_true]

/-- Below the limit, with a candidate and a first request that have a URL,
`Apply` is the header copy. -/
theorem flexible_apply_below_limit (cf : CaseFolding) (N : Int) (c p : RedirectRequest)
    (rest : List RequestRef) (h : (((some p :: rest : List RequestRef)).length : Int) < N) :
    FlexibleRedirectPolicy cf N (some c) (some p :: rest) =
      if cf.equalFold (getHostname cf c.Host) (getHostname cf p.Host) then
        match rangeAssign (headerEntries p.Header) c.Header with
        | GoResult.fault why => GoResult.fault why
        | GoResult.ret hdr => GoResult.ret ⟨none, some { c with Header := hdr }, some p :: rest⟩
      else GoResult.ret ⟨none, some c, some p :: rest⟩ := by
  have h1 : ¬ (((some p :: rest : List RequestRef).length : Int) ≥ N) := not_le.mpr h
  have hidx : goIndex (some p :: rest : List RequestRef) 0 = GoResult.ret (some p) := rfl
  by_cases heq : cf.equalFold (getHostname cf c.Host) (getHostname cf p.Host) = true
  · cases hr : rangeAssign (headerEntries p.Header) c.Header with
    | fault why =>
      simp only [FlexibleRedirectPolicy, h1, if_false, hidx, checkHostAndAddHeaders, heq,
        if_true, hr]
    | ret hdr =>
      simp only [FlexibleRedirectPolicy, h1, if_false, hidx, checkHostAndAddHeaders, heq,
        if_true, hr]
  · simp only [FlexibleRedirectPolicy, h1, if_false, hidx, checkHostAndAddHeaders, heq,
      Bool.false_eq_true]

/-- Claim C2 fails on inputs a direct caller can pass: with the limit 1 and an
empty history the length test passes and `via[0]` is out of range; with the
limit 2, one prior request with a header and a candidate on the same host
whose Header map is nil, the copy of the header assigns into the nil map; with
a candidate that is nil or has no URL the host read is a nil dereference. In
each `Apply` neither returns the error nor `nil`. -/
theorem flexible_apply_counterexample :
    (((([] : List RequestRef).length : Int) < 1) ∧
      FlexibleRedirectPolicy asciiCase 1 (some ⟨"example.com", some ⟨[]⟩⟩) [] =
        GoResult.fault "index out of range") ∧
    FlexibleRedirectPolicy asciiCase 2 (some ⟨"example.com", none⟩)
        [some ⟨"example.com", some ⟨[("Accept", ["*/*"])]⟩⟩] =
      GoResult.fault "assignment to entry in nil map" ∧
    FlexibleRedirectPolicy asciiCase 2 none [some ⟨"example.com", some ⟨[]⟩⟩] =
      GoResult.fault "nil pointer dereference" := by
  decide

/-- Claim C2 as amended: for every limit N, every candidate and every
history, `Apply` returns the error "stopped after N redirects" when
`len(history) >= N`. When `len(history) < N` it returns `nil` if the history
is not empty, the candidate and the first request of the history are requests
with a URL, and the candidate's Header map is not nil or the first request is
on another host or carries no header; in every other case the call ends in a
run-time fault. -/
theorem flexible_apply_outcome (cf : CaseFolding) (N : Int)
    (req : RequestRef) (via : List RequestRef) :
    ((via.length : Int) ≥ N →
      ∃ res, FlexibleRedirectPolicy cf N req via = GoResult.ret res ∧
        res.err = some ("stopped after " ++ toString N ++ " redirects")) ∧
    ((via.length : Int) < N → ∀ c p rest, req = some c → via = some p :: rest →
      ¬ (cf.equalFold (getHostname cf c.Host) (getHostname cf p.Host) = true ∧
          c.Header = none ∧ headerEntries p.Header ≠ []) →
      ∃ res, FlexibleRedirectPolicy cf N req via = GoResult.ret res ∧ res.err = none) ∧
    ((via.length : Int) < N →
      (via = [] ∨ req = none ∨ via.head? = some none ∨
        ∃ c p, req = some c ∧ via.head? = some (some p) ∧
          cf.equalFold (getHostname cf c.Host) (getHostname cf p.Host) = true ∧
          c.Header = none ∧ headerEntries p.Header ≠ []) →
      ∃ why, FlexibleRedirectPolicy cf N req via = GoResult.fault why) := by
  refine ⟨?_, ?_, ?_⟩
  · intro h
    exact ⟨_, flexible_apply_at_limit cf N req via h, rfl⟩
  · intro h c p rest hreq hvia hok
    subst hreq hvia
    rw [flexible_apply_below_limit cf N c p rest h]
    by_cases heq : cf.equalFold (getHostname cf c.Host) (getHostname cf p.Host) = true
    · simp only [heq, if_true]
      cases hh : c.Header with
      | none =>
        have hempty : headerEntries p.Header = [] := by
          by_contra hne
          exact hok ⟨heq, hh, hne⟩
        rw [hempty]
        exact ⟨_, rfl, rfl⟩
      | some m =>
        rw [rangeAssign_some]
        exact ⟨_, rfl, rfl⟩
    · simp only [heq, Bool.false_eq_true, if_false]
      exact ⟨_, rfl, rfl⟩
  · intro h hbad
    have h1 : ¬ ((via.length : Int) ≥ N) := not_le.mpr h
    rcases hbad with hv | hr | hp | ⟨c, p, hreq, hhead, heq, hh, hne⟩
    · subst hv
      exact ⟨_, by simp only [FlexibleRedirectPolicy, h1, if_false]; rfl⟩
    · subst hr
      cases via with
      | nil => exact ⟨_, by simp only [FlexibleRedirectPolicy, h1, if_false]; rfl⟩
      | cons x rest => exact ⟨_, by simp only [FlexibleRedirectPolicy, h1, if_false]; rfl⟩
    · cases via with
      | nil => exact ⟨_, by simp only [FlexibleRedirectPolicy, h1, if_false]; rfl⟩
      | cons x rest =>
        simp only [List.head?_cons, Option.some.injEq] at hp
        subst hp
        cases req with
        | none => exact ⟨_, by simp only [FlexibleRedirectPolicy, h1, if_false]; rfl⟩
        | some c => exact ⟨_, by simp only [FlexibleRedirectPolicy, h1, if_false]; rfl⟩
    · cases via with
      | nil => exact ⟨_, by simp only [FlexibleRedirectPolicy, h1, if_false]; rfl⟩
      | cons x rest =>
        simp only [List.head?_cons, Option.some.injEq] at hhead
        subst hhead hreq
        rw [flexible_apply_below_limit cf N c p rest h]
        obtain ⟨e, es, hes⟩ : ∃ e es, headerEntries p.Header = e :: es := by
          cases hx : headerEntries p.Header with
          | nil => exact absurd hx hne
          | cons e es => exact ⟨e, es, rfl⟩
        simp only [heq, if_true, hh, hes, rangeAssign_nil_faults]
        exact ⟨_, rfl⟩

/-- With the limit 2 a history of two requests is refused with an error that
names the limit, and a history of one request is let through. -/
theorem flexible_apply_limit_two :
    (FlexibleRedirectPolicy asciiCase 2 (some ⟨"example.com", some ⟨[]⟩⟩)
        [some ⟨"example.com", some ⟨[]⟩⟩, some ⟨"example.com", some ⟨[]⟩⟩] =
      GoResult.ret ⟨some "stopped after 2 redirects", some ⟨"example.com", some ⟨[]⟩⟩,
        [some ⟨"example.com", some ⟨[]⟩⟩, some ⟨"example.com", some ⟨[]⟩⟩]⟩) ∧
    (FlexibleRedirectPolicy asciiCase 2 (some ⟨"example.com", some ⟨[]⟩⟩)
        [some ⟨"example.com", some ⟨[]⟩⟩] =
      GoResult.ret ⟨none, some ⟨"example.com", some ⟨[]⟩⟩,
        [some ⟨"example.com", some ⟨[]⟩⟩]⟩) := by
  decide

/-- Claim C7 fails on two inputs: a candidate on the host `[::2]` after a
first request on the host `[::1]` (no port on either, the hostnames differ
under every case folding) gets the Authorization header of the first request,
because `getHostname` turns both hosts into the empty string; and a candidate
with a nil Header map on the host of the first request gets no header, the
call faults. -/
theorem flexible_apply_headers_counterexample :
    (asciiCase.equalFold "[::2]" "[::1]" = false ∧
      (([some ⟨"[::1]", some ⟨[("Authorization", ["Bearer t"])]⟩⟩] : List RequestRef).length
        : Int) < 2 ∧
      getHostname asciiCase "[::2]" = "" ∧ getHostname asciiCase "[::1]" = "" ∧
      FlexibleRedirectPolicy asciiCase 2 (some ⟨"[::2]", some ⟨[]⟩⟩)
          [some ⟨"[::1]", some ⟨[("Authorization", ["Bearer t"])]⟩⟩] =
        GoResult.ret ⟨none, some ⟨"[::2]", some ⟨[("Authorization", ["Bearer t"])]⟩⟩,
          [some ⟨"[::1]", some ⟨[("Authorization", ["Bearer t"])]⟩⟩]⟩) ∧
    FlexibleRedirectPolicy asciiCase 2 (some ⟨"example.com", none⟩)
        [some ⟨"example.com", some ⟨[("Accept", ["*/*"])]⟩⟩] =
      GoResult.fault "assignment to entry in nil map" := by
  decide

/-- Claim C7 as amended: for every limit N and every non-empty history
shorter than N, where the candidate and the first request of the history are
requests with a URL whose host is a hostname `h` without `:` or `h:port`
with h not empty and none of `:`, `[`, `]` in h or the port: if the two
hostnames, lower-cased, are equal under `EqualFold` and the candidate's
Header map is not nil (or the first request has no header), `Apply` returns
`nil`, every header key of the first request then maps on the candidate to
that request's values and the candidate's other keys are as before; if they
are not equal, `Apply` returns `nil` and the candidate is unchanged. The
history, with the headers of its first request, is as before in both cases. -/
theorem flexible_apply_headers (cf : CaseFolding) (N : Int) (req pre : RedirectRequest)
    (rest : List RequestRef) (hc pc hp pp : String)
    (hlen : (((some pre :: rest : List RequestRef)).length : Int) < N)
    (hwf : headerWellFormed pre.Header)
    (hcur : HostForm req.Host hc pc) (hpre : HostForm pre.Host hp pp) :
    (cf.equalFold (cf.toLower hc) (cf.toLower hp) = true →
      (req.Header ≠ none ∨ headerEntries pre.Header = []) →
      ∃ cur, FlexibleRedirectPolicy cf N (some req) (some pre :: rest) =
          GoResult.ret ⟨none, some cur, some pre :: rest⟩ ∧
        cur.Host = req.Host ∧
        (∀ k v, headerGet pre.Header k = some v → headerGet cur.Header k = some v) ∧
        (∀ k, headerGet pre.Header k = none →
          headerGet cur.Header k = headerGet req.Header k)) ∧
    (cf.equalFold (cf.toLower hc) (cf.toLower hp) = false →
      FlexibleRedirectPolicy cf N (some req) (some pre :: rest) =
        GoResult.ret ⟨none, some req, some pre :: rest⟩) := by
  have hgc : getHostname cf req.Host = cf.toLower hc := getHostname_of_hostForm cf _ _ _ hcur
  have hgp : getHostname cf pre.Host = cf.toLower hp := getHostname_of_hostForm cf _ _ _ hpre
  rw [flexible_apply_below_limit cf N req pre rest hlen, hgc, hgp]
  constructor
  · intro heq hhdr
    obtain ⟨hdr, hrun⟩ : ∃ hdr, rangeAssign (headerEntries pre.Header) req.Header =
        GoResult.ret hdr := by
      cases hh : req.Header with
      | some m => exact ⟨_, rangeAssign_some _ m⟩
      | none =>
        rcases hhdr with hne | hempty
        · exact absurd hh hne
        · exact ⟨none, by rw [hempty]; rfl⟩
    have hget := rangeAssign_get (headerEntries pre.Header) hwf req.Header hdr hrun
    refine ⟨{ req with Header := hdr }, ?_, rfl, ?_, ?_⟩
    · simp only [heq, if_true, hrun]
    · intro k v hk
      rw [headerGet_eq_getEntries] at hk
      have := hget k
      rw [hk] at this
      exact this
    · intro k hk
      rw [headerGet_eq_getEntries] at hk
      have := hget k
      rw [hk] at this
      exact this
  · intro hne
    simp only [hne, Bool.false_eq_true, if_false]

/-- Claim C7 as amended, at a same-host redirect (the hosts differ in case and
port) that brings one header the candidate lacks and one it has with another
value. -/
theorem flexible_apply_headers_witness :
    (asciiCase.equalFold (asciiCase.toLower "example.com") (asciiCase.toLower "EXAMPLE.COM")
        = true →
      ((some ⟨[("X", ["1"]), ("Z", ["9"])]⟩ : Header) ≠ none ∨
        headerEntries (some ⟨[("Y", ["2"]), ("X", ["3"])]⟩) = []) →
      ∃ cur, FlexibleRedirectPolicy asciiCase 2
          (some ⟨"example.com", some ⟨[("X", ["1"]), ("Z", ["9"])]⟩⟩)
          (some ⟨"EXAMPLE.COM:8443", some ⟨[("Y", ["2"]), ("X", ["3"])]⟩⟩ :: []) =
          GoResult.ret ⟨none, some cur,
            some ⟨"EXAMPLE.COM:8443", some ⟨[("Y", ["2"]), ("X", ["3"])]⟩⟩ :: []⟩ ∧
        cur.Host = "example.com" ∧
        (∀ k v, headerGet (some ⟨[("Y", ["2"]), ("X", ["3"])]⟩) k = some v →
          headerGet cur.Header k = some v) ∧
        (∀ k, headerGet (some ⟨[("Y", ["2"]), ("X", ["3"])]⟩) k = none →
          headerGet cur.Header k = headerGet (some ⟨[("X", ["1"]), ("Z", ["9"])]⟩) k)) ∧
    asciiCase.equalFold (asciiCase.toLower "example.com") (asciiCase.toLower "EXAMPLE.COM")
      = true :=
  ⟨(flexible_apply_headers asciiCase 2 ⟨"example.com", some ⟨[("X", ["1"]), ("Z", ["9"])]⟩⟩
      ⟨"EXAMPLE.COM:8443", some ⟨[("Y", ["2"]), ("X", ["3"])]⟩⟩ [] "example.com" ""
      "EXAMPLE.COM" "8443" (by decide) (by decide) (by decide) (by decide)).1,
   by decide⟩

/-- The same redirect evaluated: the candidate ends with the first request's
values for X and Y and keeps its own Z. -/
theorem flexible_apply_headers_sample :
    FlexibleRedirectPolicy asciiCase 2
        (some ⟨"example.com", some ⟨[("X", ["1"]), ("Z", ["9"])]⟩⟩)
        [some ⟨"EXAMPLE.COM:8443", some ⟨[("Y", ["2"]), ("X", ["3"])]⟩⟩] =
      GoResult.ret ⟨none,
        some ⟨"example.com", some ⟨[("X", ["3"]), ("Z", ["9"]), ("Y", ["2"])]⟩⟩,
        [some ⟨"EXAMPLE.COM:8443", some ⟨[("Y", ["2"]), ("X", ["3"])]⟩⟩]⟩ := by
  decide

/-! ## Theorems: the single-shot path of `Execute` -/

theorem transportCalls_append (a b : List Event) :
    transportCalls (a ++ b) = transportCalls a ++ transportCalls b := by
  induction a with
  | nil => rfl
  | cons e rest ih => cases e <;> simp [transportCalls, ih]

theorem transportCalls_hooks (hooks : List String) (r : HttpRequest)
    (resp : Option HttpResponse) (err : Option GoError) :
    transportCalls (hooks.map (fun hook => Event.errorHook hook r resp err)) = [] := by
  induction hooks with
  | nil => rfl
  | cons h rest ih => simp [transportCalls, ih]

/-- Claim C6 fails with two candidates: with the retry budget 0 the URL handed
to the transport is the one built from the first candidate (the address for
attempt 0, selected before the attempt counter is set), not the one the
rotator gives for attempt 1; and a request stopped by the multipart
validation reaches no transport call at all. -/
theorem execute_single_shot_counterexample :
    transportCalls (Execute (sampleClient 0) (sampleWorld twoCandidates)
        ⟨"", "", 0, false, some ⟨"svc", "example"⟩⟩ "GET" "/x").events =
      [⟨"http://a.example:8080/x", "GET", 1, false, some ⟨"svc", "example"⟩⟩] ∧
    selectAddr "http" (some twoCandidates) "/x" 1 = GoResult.ret "http://b.example:8081/x" ∧
    selectAddr "http" (some twoCandidates) "/x" 0 = GoResult.ret "http://a.example:8080/x" ∧
    transportCalls (Execute (sampleClient 0) (sampleWorld twoCandidates)
        ⟨"", "", 0, true, some ⟨"svc", "example"⟩⟩ "GET" "/x").events = [] := by
  decide

/-- Claim C6 as amended: for every call of `Execute` that passes the multipart
validation with the retry budget 0: if the request's SRV target resolves to a
non-empty candidate list, there is exactly one transport call, its request
has the attempt counter 1 and the URL selected for attempt 0, built from
the first candidate; if no SRV target is set, the one transport call gets
the literal url argument, again with the attempt counter 1. -/
theorem execute_single_shot (c : HttpClient) (w : Collaborators) (r : HttpRequest)
    (method url : String)
    (hv : (r.isMultiPart &&
      !(method == MethodPost || method == MethodPut || method == MethodPatch)) = false)
    (hrc : c.RetryCount = 0) :
    (∀ srv a rest, r.SRV = some srv →
      w.LookupSRV srv.Service "tcp" srv.Domain = Except.ok (a, rest) →
      (Execute c w r method url).r.Attempt = 1 ∧
      transportCalls (Execute c w r method url).events = [(Execute c w r method url).r] ∧
      selectAddr c.scheme (some (a :: rest)) url 0 =
        GoResult.ret (Execute c w r method url).r.URL ∧
      (Execute c w r method url).r.URL =
        c.scheme ++ "://" ++ trimRightDots a.Target ++ ":" ++ toString a.Port ++ "/" ++
          trimLeftSlashes url) ∧
    (r.SRV = none →
      (Execute c w r method url).r.Attempt = 1 ∧
      transportCalls (Execute c w r method url).events = [(Execute c w r method url).r] ∧
      (Execute c w r method url).r.URL = url) := by
  constructor
  · intro srv a rest hsrv hlook
    have hsel : selectAddr c.scheme (some (a :: rest)) url 0 =
        GoResult.ret (c.scheme ++ "://" ++ trimRightDots a.Target ++ ":" ++ toString a.Port ++
          "/" ++ trimLeftSlashes url) := by
      obtain ⟨x, hx, hs⟩ := selectAddr_rotates c.scheme url a rest 0
      simp only [Nat.zero_mod, List.get?_cons_zero, Option.some.injEq] at hx
      subst hx
      exact hs
    simp only [Execute, executeResolved, onErrorHooks, hv, hsrv, hlook, hsel, hrc, if_true,
      Bool.false_eq_true, if_false, transportCalls_append, transportCalls_hooks, transportCalls,
      List.nil_append, List.cons_append, List.append_nil, and_self]
  · intro hsrv
    simp only [Execute, executeResolved, onErrorHooks, hv, hsrv, hrc, selectAddr, if_true,
      Bool.false_eq_true, if_false, transportCalls_append, transportCalls_hooks, transportCalls,
      List.nil_append, List.append_nil, and_self]

/-- Claim C6 as amended, at a GET with two candidates and at a GET without an
SRV target. -/
theorem execute_single_shot_witness :
    (∀ srv a rest, (some ⟨"svc", "example"⟩ : Option SRVRecord) = some srv →
      (sampleWorld twoCandidates).LookupSRV srv.Service "tcp" srv.Domain =
        Except.ok (a, rest) →
      (Execute (sampleClient 0) (sampleWorld twoCandidates)
        ⟨"", "", 0, false, some ⟨"svc", "example"⟩⟩ "GET" "/x").r.Attempt = 1 ∧
      transportCalls (Execute (sampleClient 0) (sampleWorld twoCandidates)
        ⟨"", "", 0, false, some ⟨"svc", "example"⟩⟩ "GET" "/x").events =
        [(Execute (sampleClient 0) (sampleWorld twoCandidates)
          ⟨"", "", 0, false, some ⟨"svc", "example"⟩⟩ "GET" "/x").r] ∧
      selectAddr "http" (some (a :: rest)) "/x" 0 =
        GoResult.ret (Execute (sampleClient 0) (sampleWorld twoCandidates)
          ⟨"", "", 0, false, some ⟨"svc", "example"⟩⟩ "GET" "/x").r.URL ∧
      (Execute (sampleClient 0) (sampleWorld twoCandidates)
        ⟨"", "", 0, false, some ⟨"svc", "example"⟩⟩ "GET" "/x").r.URL =
        "http" ++ "://" ++ trimRightDots a.Target ++ ":" ++ toString a.Port ++ "/" ++
          trimLeftSlashes "/x") ∧
    (Execute (sampleClient 0) (sampleWorld []) ⟨"", "", 0, false, none⟩ "GET" "/x").r.URL = "/x" :=
  ⟨(execute_single_shot (sampleClient 0) (sampleWorld twoCandidates)
      ⟨"", "", 0, false, some ⟨"svc", "example"⟩⟩ "GET" "/x" (by decide) rfl).1,
   ((execute_single_shot (sampleClient 0) (sampleWorld [])
      ⟨"", "", 0, false, none⟩ "GET" "/x" (by decide) rfl).2 rfl).2.2⟩

/-! ## Theorems: the error hooks of `Execute` -/

theorem hookCalls_append (a b : List Event) :
    hookCalls (a ++ b) = hookCalls a ++ hookCalls b := by
  induction a with
  | nil => rfl
  | cons e rest ih => cases e <;> simp [hookCalls, ih]

theorem hookCalls_onErrorHooks (c : HttpClient) (r : HttpRequest)
    (resp : Option HttpResponse) (err : Option GoError) :
    hookCalls (onErrorHooks c r resp err) =
      c.errorHooks.map (fun hook => (hook, r, resp, err)) := by
  unfold onErrorHooks
  induction c.errorHooks with
  | nil => rfl
  | cons h rest ih => simp [hookCalls, ih]

theorem wrapInt64_of_nonneg (x : Int) (h0 : 0 ≤ x) (h1 : x ≤ maxInt64) : wrapInt64 x = x := by
  unfold wrapInt64
  unfold maxInt64 at h1
  omega

/-- Candidates that are nil or not empty never make the rotator fault on an
attempt that is not negative. -/
theorem selectAddr_returns (scheme path : String) (addrs : Option (List NetSRV))
    (attempt : Int) (hne : addrs ≠ some []) (hat : 0 ≤ attempt) :
    ∃ u, selectAddr scheme addrs path attempt = GoResult.ret u := by
  cases addrs with
  | none => exact ⟨path, rfl⟩
  | some as =>
    cases as with
    | nil => exact absurd rfl hne
    | cons a rest =>
      obtain ⟨n, rfl⟩ := Int.eq_ofNat_of_zero_le hat
      obtain ⟨x, _, hs⟩ := selectAddr_rotates scheme path a rest n
      exact ⟨_, hs⟩

/-- One attempt of the retried closure returns and invokes no error hook, when
no SRV candidates are in use or the attempt counter is non-negative and below
the largest `int`. -/
theorem attemptOnce_returns (c : HttpClient) (w : Collaborators) (addrs : Option (List NetSRV))
    (url : String) (s : ExecState)
    (hinv : addrs = none ∨ (addrs ≠ some [] ∧ 0 ≤ s.r.Attempt ∧ s.r.Attempt + 1 ≤ maxInt64)) :
    ∃ s1 err, attemptOnce c w addrs url s = GoResult.ret (s1, err) ∧
      hookCalls s1.events = hookCalls s.events ∧
      s1.r.Attempt = wrapInt64 (s.r.Attempt + 1) := by
  obtain ⟨u, hu⟩ : ∃ u, selectAddr c.scheme addrs url (wrapInt64 (s.r.Attempt + 1)) =
      GoResult.ret u := by
    rcases hinv with rfl | ⟨hne, h0, h1⟩
    · exact ⟨url, rfl⟩
    · rw [wrapInt64_of_nonneg _ (by omega) h1]
      exact selectAddr_returns c.scheme url addrs _ hne (by omega)
  unfold attemptOnce
  simp only [hu]
  refine ⟨_, _, rfl, ?_, rfl⟩
  dsimp only
  split <;> simp [hookCalls_append, hookCalls]

/-- The retry controller returns and invokes no error hook itself. -/
theorem backoff_returns (c : HttpClient) (w : Collaborators) (addrs : Option (List NetSRV))
    (url : String) (budget : Nat) (s : ExecState)
    (hinv : addrs = none ∨
      (addrs ≠ some [] ∧ 0 ≤ s.r.Attempt ∧ s.r.Attempt + (budget : Int) ≤ maxInt64)) :
    ∃ s1 err, Backoff w (attemptOnce c w addrs url) budget s = GoResult.ret (s1, err) ∧
      hookCalls s1.events = hookCalls s.events := by
  induction budget generalizing s with
  | zero => exact ⟨s, none, rfl, rfl⟩
  | succ n ih =>
    have hstep : addrs = none ∨
        (addrs ≠ some [] ∧ 0 ≤ s.r.Attempt ∧ s.r.Attempt + 1 ≤ maxInt64) := by
      rcases hinv with h | ⟨hne, h0, h1⟩
      · exact Or.inl h
      · refine Or.inr ⟨hne, h0, ?_⟩
        push_cast at h1
        omega
    obtain ⟨s1, err, h1, h2, h3⟩ := attemptOnce_returns c w addrs url s hstep
    unfold Backoff
    simp only [h1]
    by_cases hstop : (n = 0 || !w.needsRetry s1.resp err) = true
    · exact ⟨s1, err, by simp only [hstop, if_true], h2⟩
    · have hnext : addrs = none ∨ (addrs ≠ some [] ∧
          0 ≤ ({ s1 with events := s1.events ++ [Event.retryWait s1.resp err] } : ExecState).r.Attempt ∧
          ({ s1 with events := s1.events ++ [Event.retryWait s1.resp err] } : ExecState).r.Attempt
            + (n : Int) ≤ maxInt64) := by
        rcases hinv with h | ⟨hne, h0, hb⟩
        · exact Or.inl h
        · refine Or.inr ⟨hne, ?_, ?_⟩
          · show 0 ≤ s1.r.Attempt
            push_cast at hb
            rw [h3, wrapInt64_of_nonneg _ (by omega) (by omega)]
            omega
          · show s1.r.Attempt + (n : Int) ≤ maxInt64
            push_cast at hb
            rw [h3, wrapInt64_of_nonneg _ (by omega) (by omega)]
            omega
      obtain ⟨s2, err2, h4, h5⟩ :=
        ih { s1 with events := s1.events ++ [Event.retryWait s1.resp err] } hnext
      refine ⟨s2, err2, by simp only [hstop, Bool.false_eq_true, if_false, h4], ?_⟩
      rw [h5, hookCalls_append, h2]
      simp [hookCalls]

/-- After the address resolution `Execute` returns and has invoked every
registered error hook once, on the returned error. -/
theorem executeResolved_hooks (c : HttpClient) (w : Collaborators) (r : HttpRequest)
    (method url : String) (addrs : Option (List NetSRV)) (events : List Event)
    (hne : addrs ≠ some []) (hev : hookCalls events = [])
    (hat : c.RetryCount = 0 ∨ addrs = none ∨
      (0 ≤ r.Attempt ∧ r.Attempt + ((c.RetryCount + 1).toNat : Int) ≤ maxInt64)) :
    ∃ resp err, (executeResolved c w r method url addrs events).returned =
        GoResult.ret (resp, err) ∧
      hookCalls (executeResolved c w r method url addrs events).events =
        c.errorHooks.map (fun hook =>
          (hook, (executeResolved c w r method url addrs events).r, resp, err)) := by
  obtain ⟨u, hu⟩ := selectAddr_returns c.scheme url addrs 0 hne (le_refl 0)
  by_cases hrc : c.RetryCount = 0
  · refine ⟨(w.execute { r with Method := method, URL := u, Attempt := 1 }).1,
      w.unwrapNoRetryErr (w.execute { r with Method := method, URL := u, Attempt := 1 }).2,
      ?_, ?_⟩
    · simp only [executeResolved, hu, hrc, if_true]
    · simp only [executeResolved, hu, hrc, if_true, hookCalls_append, hev,
        hookCalls_onErrorHooks, hookCalls, List.nil_append]
  · have hinv : addrs = none ∨ (addrs ≠ some [] ∧
        0 ≤ (⟨{ r with Method := method, URL := u }, none, events⟩ : ExecState).r.Attempt ∧
        (⟨{ r with Method := method, URL := u }, none, events⟩ : ExecState).r.Attempt +
          ((c.RetryCount + 1).toNat : Int) ≤ maxInt64) := by
      rcases hat with h | h | ⟨h0, h1⟩
      · exact absurd h hrc
      · exact Or.inl h
      · exact Or.inr ⟨hne, h0, h1⟩
    obtain ⟨s1, err, hb, hc⟩ := backoff_returns c w addrs url (c.RetryCount + 1).toNat
      ⟨{ r with Method := method, URL := u }, none, events⟩ hinv
    refine ⟨s1.resp, w.unwrapNoRetryErr err, ?_, ?_⟩
    · simp only [executeResolved, hu, hrc, if_false, hb]
    · simp only [executeResolved, hu, hrc, if_false, hb, hookCalls_append, hc, hev,
        hookCalls_onErrorHooks, List.nil_append]

/-- Claim C5 fails for a request whose attempt counter does not start in the
range the retry loop can count through: with retries enabled, three SRV
candidates and the counter at -3, the first attempt selects with -2, the
remainder `-2 % 3` is -2 and the index is out of range; with the counter at
the largest `int` the increment wraps around to a negative number with the
same end. The call passes the validation and ends in the fault: the
registered error hook is not invoked and nothing is returned. -/
theorem execute_hooks_counterexample :
    (sampleClient 1).errorHooks = ["onError"] ∧
    (Execute (sampleClient 1) (sampleWorld threeCandidates)
        ⟨"", "", -3, false, some ⟨"svc", "example"⟩⟩ "GET" "/x").returned =
      GoResult.fault "index out of range" ∧
    hookCalls (Execute (sampleClient 1) (sampleWorld threeCandidates)
        ⟨"", "", -3, false, some ⟨"svc", "example"⟩⟩ "GET" "/x").events = [] ∧
    (Execute (sampleClient 1) (sampleWorld threeCandidates)
        ⟨"", "", 9223372036854775807, false, some ⟨"svc", "example"⟩⟩ "GET" "/x").returned =
      GoResult.fault "index out of range" ∧
    hookCalls (Execute (sampleClient 1) (sampleWorld threeCandidates)
        ⟨"", "", 9223372036854775807, false, some ⟨"svc", "example"⟩⟩ "GET" "/x").events = [] := by
  decide

/-- Claim C5 as amended: every call of `Execute` that passes the multipart
validation and for which, when retries are enabled and the SRV target has
resolved to candidates, the attempt counter starts non-negative and stays
within the range of `int` through the retry budget, returns, and on whichever
path it took (failed SRV resolution, single shot, retry loop) every
registered error hook has been invoked exactly once, with the final request,
the returned response and the unwrapped error that the call returns. -/
theorem execute_hooks_once (c : HttpClient) (w : Collaborators) (r : HttpRequest)
    (method url : String)
    (hv : (r.isMultiPart &&
      !(method == MethodPost || method == MethodPut || method == MethodPatch)) = false)
    (hat : c.RetryCount = 0 ∨ ∀ srv a rest, r.SRV = some srv →
      w.LookupSRV srv.Service "tcp" srv.Domain = Except.ok (a, rest) →
      0 ≤ r.Attempt ∧ r.Attempt + ((c.RetryCount + 1).toNat : Int) ≤ maxInt64) :
    ∃ resp err, (Execute c w r method url).returned = GoResult.ret (resp, err) ∧
      hookCalls (Execute c w r method url).events =
        c.errorHooks.map (fun hook => (hook, (Execute c w r method url).r, resp, err)) := by
  cases hsrv : r.SRV with
  | none =>
    have hE : Execute c w r method url = executeResolved c w r method url none [] := by
      simp only [Execute, hv, hsrv, Bool.false_eq_true, if_false]
    rw [hE]
    exact executeResolved_hooks c w r method url none [] (by simp) rfl (Or.inr (Or.inl rfl))
  | some srv =>
    cases hlook : w.LookupSRV srv.Service "tcp" srv.Domain with
    | error e =>
      have hE : Execute c w r method url =
          ⟨r, [Event.lookupSRV srv.Service "tcp" srv.Domain] ++ onErrorHooks c r none (some e),
            GoResult.ret (none, some e)⟩ := by
        simp only [Execute, hv, hsrv, hlook, Bool.false_eq_true, if_false]
      rw [hE]
      refine ⟨none, some e, rfl, ?_⟩
      show hookCalls ([Event.lookupSRV srv.Service "tcp" srv.Domain] ++
        onErrorHooks c r none (some e)) = _
      rw [hookCalls_append, hookCalls_onErrorHooks]
      rfl
    | ok ans =>
      obtain ⟨a, rest⟩ := ans
      have hE : Execute c w r method url = executeResolved c w r method url (some (a :: rest))
          [Event.lookupSRV srv.Service "tcp" srv.Domain] := by
        simp only [Execute, hv, hsrv, hlook, Bool.false_eq_true, if_false]
      rw [hE]
      refine executeResolved_hooks c w r method url (some (a :: rest)) _ (by simp) rfl ?_
      rcases hat with h | h
      · exact Or.inl h
      · exact Or.inr (Or.inr (h srv a rest hsrv hlook))

/-- Claim C5 as amended, at a GET with three retries on a fresh request with
two SRV candidates. -/
theorem execute_hooks_once_witness :
    ∃ resp err, (Execute (sampleClient 3) (sampleWorld twoCandidates)
        ⟨"", "", 0, false, some ⟨"svc", "example"⟩⟩ "GET" "/x").returned =
        GoResult.ret (resp, err) ∧
      hookCalls (Execute (sampleClient 3) (sampleWorld twoCandidates)
        ⟨"", "", 0, false, some ⟨"svc", "example"⟩⟩ "GET" "/x").events =
        (sampleClient 3).errorHooks.map (fun hook =>
          (hook, (Execute (sampleClient 3) (sampleWorld twoCandidates)
            ⟨"", "", 0, false, some ⟨"svc", "example"⟩⟩ "GET" "/x").r, resp, err)) :=
  execute_hooks_once (sampleClient 3) (sampleWorld twoCandidates)
    ⟨"", "", 0, false, some ⟨"svc", "example"⟩⟩ "GET" "/x" (by decide)
    (Or.inr (fun _ _ _ _ _ => by decide))

/-- The three paths on samples: a failed lookup, the single shot and the retry
loop each end with one invocation of the registered hook, on the returned
error. -/
theorem execute_hooks_samples :
    hookCalls (Execute (sampleClient 3) (sampleWorld [])
        ⟨"", "", 0, false, some ⟨"svc", "example"⟩⟩ "GET" "/x").events =
      [("onError", ⟨"", "", 0, false, some ⟨"svc", "example"⟩⟩, none, some "no such host")] ∧
    hookCalls (Execute (sampleClient 0) (sampleWorld twoCandidates)
        ⟨"", "", 0, false, some ⟨"svc", "example"⟩⟩ "GET" "/x").events =
      [("onError", ⟨"http://a.example:8080/x", "GET", 1, false, some ⟨"svc", "example"⟩⟩,
        some ⟨some ⟨200, ""⟩, none⟩, none)] ∧
    hookCalls (Execute (sampleClient 3) (sampleWorld twoCandidates)
        ⟨"", "", 0, false, some ⟨"svc", "example"⟩⟩ "GET" "/x").events =
      [("onError", ⟨"http://b.example:8081/x", "GET", 1, false, some ⟨"svc", "example"⟩⟩,
        some ⟨some ⟨200, ""⟩, none⟩, none)] :=
  ⟨by rfl, by rfl, by rfl⟩

end Kenobi
